import Mathlib

/-!
Verification of the CI-provider tag extraction engine and the test
lifecycle / failure-classification logic of the `dd-sdk-go-testing`
repository.

The Go sources (`init.go`, `internal/utils/ci_providers.go`) are shallowly
embedded below.  The process environment is modelled as a partial map from
variable names to values (`Env`), distinguishing an unset variable (`none`)
from one set to the empty string (`some ""`).  A Go `map[string]string` is
modelled as an association list with unique keys (`Tags`); writing a key
removes any previous binding, mirroring map-update semantics.  Fallible
code (the GitLab extractor, which performs unchecked indexing into a split
result and can panic) returns `Option`.
-/

namespace DdSdkGoTesting

/-- Process environment: `none` means the variable is unset, `some v` that it
is set to `v` (possibly the empty string).  Mirrors `os.LookupEnv`. -/
def Env : Type := String → Option String

/-- Embedding of Go `os.Getenv`: an unset variable reads as the empty string. -/
def getenv (env : Env) (key : String) : String := (env key).getD ""

/-- Boolean test that a list starts with the given pattern. -/
def listStartsWith : List Char → List Char → Bool
  | _, [] => true
  | [], _ :: _ => false
  | a :: l, b :: p => a == b && listStartsWith l p

/-- Boolean substring containment on character lists. -/
def listContains (needle : List Char) : List Char → Bool
  | [] => listStartsWith [] needle
  | c :: t => listStartsWith (c :: t) needle || listContains needle t

/-- Embedding of Go `strings.Contains`. -/
def strContains (s sub : String) : Bool := listContains sub.data s.data

/-- String starts-with test (used for anchored regular expressions). -/
def strStartsWith (s p : String) : Bool := listStartsWith s.data p.data

/-- Drop the first `n` characters of a string. -/
def strDropN (s : String) (n : Nat) : String := String.mk (s.data.drop n)

/-- Embedding of Go `strings.TrimSuffix`. -/
def trimSuffixStr (s suf : String) : String :=
  if listStartsWith s.data.reverse suf.data.reverse then
    String.mk (s.data.take (s.data.length - suf.data.length))
  else s

/-- Strip one anchored occurrence of the alternation `^refs/(heads/)?`:
the `ReplaceAll` in `normalizeRef` uses a `^`-anchored pattern (without
multiline mode), so it can only rewrite a single leading occurrence, and the
greedy optional group prefers `refs/heads/` over `refs/`. -/
def stripRefs (s : String) : String :=
  if strStartsWith s "refs/heads/" then strDropN s 11
  else if strStartsWith s "refs/" then strDropN s 5
  else s

/-- Strip one anchored occurrence of the literal pattern `p` (embedding of
`ReplaceAll` with a `^`-anchored literal regular expression). -/
def stripPre (p s : String) : String :=
  if strStartsWith s p then strDropN s p.data.length else s

/-- Embedding of `normalizeRef` (ci_providers.go:116-122): strip a leading
`refs/heads/` or `refs/`, then a leading `origin/`, then a leading `tags/`. -/
def normalizeRef (name : String) : String :=
  stripPre "tags/" (stripPre "origin/" (stripRefs name))

theorem listStartsWith_append_left (l a b : List Char)
    (h : listStartsWith l (a ++ b) = true) : listStartsWith l a = true := by
  induction a generalizing l with
  | nil => cases l <;> rfl
  | cons x xs ih =>
    cases l with
    | nil => simp [listStartsWith] at h
    | cons y ys =>
      simp only [List.cons_append, listStartsWith, Bool.and_eq_true] at h ⊢
      exact ⟨h.1, ih ys h.2⟩

/-- C3 counterexample helper: the concrete non-idempotence input. -/
def c3Input : String := "origin/refs/heads/main"

/-- C3: `normalizeRef` is claimed idempotent, but stripping `origin/` can
expose a fresh `refs/heads/` layer that a second application then strips:
`normalizeRef "origin/refs/heads/main" = "refs/heads/main"`, while applying
it again yields `"main"`. -/
theorem c3_counterexample :
    normalizeRef c3Input = "refs/heads/main" ∧
    normalizeRef (normalizeRef c3Input) = "main" ∧
    normalizeRef (normalizeRef c3Input) ≠ normalizeRef c3Input := by
  refine ⟨by decide, by decide, by decide⟩

/-- C3 (amended): `normalizeRef` strips exactly one leading layer of
`refs/heads/` or `refs/`, then one of `origin/`, then one of `tags/`, in that
sequence — `normalizeRef "refs/heads/main" = "main"` and
`normalizeRef "origin/tags/v1.0" = "v1.0"` — and it is idempotent on every
input whose output does not itself start with `refs/`, `origin/` or `tags/`
(full idempotence fails, see the counterexample). -/
theorem c3_amended :
    normalizeRef "refs/heads/main" = "main" ∧
    normalizeRef "origin/tags/v1.0" = "v1.0" ∧
    ∀ s : String,
      strStartsWith (normalizeRef s) "refs/" = false →
      strStartsWith (normalizeRef s) "origin/" = false →
      strStartsWith (normalizeRef s) "tags/" = false →
      normalizeRef (normalizeRef s) = normalizeRef s := by
  refine ⟨by decide, by decide, ?_⟩
  intro s h1 h2 h3
  generalize normalizeRef s = t at h1 h2 h3 ⊢
  have hrh : strStartsWith t "refs/heads/" = false := by
    cases hx : strStartsWith t "refs/heads/" with
    | false => rfl
    | true =>
      have hr : strStartsWith t "refs/" = true := by
        have hap := listStartsWith_append_left t.data "refs/".data "heads/".data
        simp only [strStartsWith] at hx ⊢
        exact hap hx
      rw [hr] at h1; cases h1
  simp [normalizeRef, stripRefs, stripPre, hrh, h1, h2, h3]

/-- C3 witness: the amended idempotence statement applied at a concrete
input whose normalization has no leading strippable layer. -/
theorem c3_witness :
    normalizeRef (normalizeRef "refs/heads/main") = normalizeRef "refs/heads/main" :=
  c3_amended.2.2 "refs/heads/main" (by decide) (by decide) (by decide)

/-- A Go `map[string]string` modelled as an association list.  All maps in
the source are built by key assignment starting from an empty literal, so the
lists built here always have pairwise-distinct keys (`keysOk`). -/
abbrev Tags : Type := List (String × String)

/-- Remove every binding of key `k` (helper for map assignment). -/
def eraseTag (k : String) (t : Tags) : Tags :=
  List.filter (fun p => p.1 != k) t

/-- Go map assignment `tags[k] = v`: any previous binding of `k` is replaced. -/
def setTag (t : Tags) (k v : String) : Tags := (k, v) :: eraseTag k t

/-- Go map read with presence bit: `v, ok := tags[k]`. -/
def getTag (t : Tags) (k : String) : Option String :=
  (List.find? (fun p => p.1 == k) t).map (fun p => p.2)

/-- Go map read without presence bit: a missing key yields the zero value. -/
def getTagD (t : Tags) (k : String) : String := (getTag t k).getD ""

/-- Embedding of `removeEmpty` (ci_providers.go:36-42): delete every key
whose value is the empty string. -/
def removeEmpty (t : Tags) : Tags := List.filter (fun p => p.2 != "") t

/-- Key-uniqueness invariant maintained by `setTag`-built maps. -/
def keysOk (t : Tags) : Prop := List.Pairwise (fun p q => p.1 ≠ q.1) t

theorem keysOk_nil : keysOk ([] : Tags) := List.Pairwise.nil

theorem keysOk_eraseTag (k : String) {t : Tags} (h : keysOk t) :
    keysOk (eraseTag k t) := List.Pairwise.filter _ h

theorem keysOk_setTag {t : Tags} (k v : String) (h : keysOk t) :
    keysOk (setTag t k v) := by
  refine List.pairwise_cons.mpr ⟨?_, keysOk_eraseTag k h⟩
  intro q hq
  have hm := List.of_mem_filter hq
  simp only [bne_iff_ne, ne_eq] at hm
  exact fun hk => hm (hk ▸ rfl)

theorem getTag_setTag_self (t : Tags) (k v : String) :
    getTag (setTag t k v) k = some v := by
  simp [getTag, setTag, List.find?]

theorem getTag_eraseTag_ne {k k' : String} (t : Tags) (h : k' ≠ k) :
    getTag (eraseTag k t) k' = getTag t k' := by
  induction t with
  | nil => rfl
  | cons p t ih =>
    by_cases hpk : p.1 = k
    · have : (p.1 != k) = false := by simp [hpk]
      have hfind : (p.1 == k') = false := by
        simp only [beq_eq_false_iff_ne, ne_eq, hpk]
        exact fun hk => h hk.symm
      simp only [eraseTag, List.filter, this] at *
      simp only [getTag, List.find?, hfind]
      exact ih
    · have : (p.1 != k) = true := by simp [hpk]
      simp only [eraseTag, List.filter, this] at *
      by_cases hpk' : p.1 = k'
      · simp [getTag, List.find?, hpk']
      · have hfind : (p.1 == k') = false := by simp [hpk']
        simp only [getTag, List.find?, hfind]
        exact ih

theorem getTag_setTag_ne (t : Tags) {k k' : String} (v : String) (h : k' ≠ k) :
    getTag (setTag t k v) k' = getTag t k' := by
  have hfind : (k == k') = false := by
    simp only [beq_eq_false_iff_ne, ne_eq]
    exact fun hk => h hk.symm
  simp only [setTag, getTag, List.find?, hfind]
  exact getTag_eraseTag_ne t h

theorem getTag_nil (k : String) : getTag ([] : Tags) k = none := rfl

theorem getTag_filter_none {t : Tags} {k : String} (f : String × String → Bool)
    (h : getTag t k = none) : getTag (List.filter f t) k = none := by
  induction t with
  | nil => rfl
  | cons p t ih =>
    by_cases hpk : p.1 = k
    · exfalso
      have : (p.1 == k) = true := by simp [hpk]
      simp [getTag, List.find?, this] at h
    · have hfind : (p.1 == k) = false := by simp [hpk]
      simp only [getTag, List.find?, hfind] at h
      cases hf : f p with
      | false =>
        simp only [List.filter, hf]
        exact ih h
      | true =>
        simp only [List.filter, hf, getTag, List.find?, hfind]
        exact ih h

/-- Pruning never produces an empty value: core of claim C4. -/
theorem getTag_removeEmpty_ne_empty (t : Tags) (k : String) :
    getTag (removeEmpty t) k ≠ some "" := by
  intro h
  simp only [removeEmpty, getTag, Option.map_eq_some'] at h
  obtain ⟨p, hp, hv⟩ := h
  have hmem := List.mem_of_find?_eq_some hp
  have := List.of_mem_filter hmem
  rw [hv] at this
  simp at this

/-- On a unique-keyed map, pruning removes exactly the empty-valued keys. -/
theorem getTag_removeEmpty {t : Tags} {k v : String} (hok : keysOk t)
    (h : getTag t k = some v) :
    getTag (removeEmpty t) k = if v = "" then none else some v := by
  induction t with
  | nil => cases h
  | cons p t ih =>
    have hok' : keysOk t := (List.pairwise_cons.mp hok).2
    have hhead := (List.pairwise_cons.mp hok).1
    by_cases hpk : p.1 = k
    · have hbeq : (p.1 == k) = true := by simp [hpk]
      simp only [getTag, List.find?, hbeq, Option.map_some', Option.some_inj] at h
      subst h
      by_cases hv : p.2 = ""
      · have hfp : (p.2 != "") = false := by simp [hv]
        simp only [removeEmpty, List.filter, hfp, hv, if_pos]
        have hnone : getTag t k = none := by
          cases hfind : List.find? (fun q => q.1 == k) t with
          | none => simp [getTag, hfind]
          | some q =>
            exfalso
            have hqmem := List.mem_of_find?_eq_some hfind
            have hqk := List.find?_some hfind
            simp only [beq_iff_eq] at hqk
            exact (hhead q hqmem) (by rw [hpk, hqk])
        exact getTag_filter_none _ hnone
      · have hfp : (p.2 != "") = true := by simp [hv]
        simp only [removeEmpty, List.filter, hfp, if_neg hv]
        simp [getTag, List.find?, hbeq]
    · have hbeq : (p.1 == k) = false := by simp [hpk]
      simp only [getTag, List.find?, hbeq] at h
      cases hfp : (p.2 != "") with
      | false =>
        simp only [removeEmpty, List.filter, hfp]
        exact ih hok' h
      | true =>
        simp only [removeEmpty, List.filter, hfp, getTag, List.find?, hbeq]
        exact ih hok' h

/-- Modelled from the spec: the tag-key constants live in
`internal/constants` (not under `src/`); §3 of the spec fixes one distinct
key per field of the tag-set vocabulary.  Only their distinctness matters to
the claims; the literal values follow the provider/git naming of the spec. -/
def keyCIProviderName : String := "ci.provider.name"

def keyGitRepositoryURL : String := "git.repository_url"

def keyGitCommitSHA : String := "git.commit.sha"

def keyGitBranch : String := "git.branch"

def keyGitTag : String := "git.tag"

def keyCIWorkspacePath : String := "ci.workspace_path"

def keyCIPipelineID : String := "ci.pipeline.id"

def keyCIPipelineName : String := "ci.pipeline.name"

def keyCIPipelineNumber : String := "ci.pipeline.number"

def keyCIPipelineURL : String := "ci.pipeline.url"

def keyCIJobURL : String := "ci.job.url"

def keyCIJobName : String := "ci.job.name"

def keyCIStageName : String := "ci.stage.name"

def keyGitCommitMessage : String := "git.commit.message"

def keyGitCommitAuthorName : String := "git.commit.author.name"

def keyGitCommitAuthorEmail : String := "git.commit.author.email"

def keyGitCommitAuthorDate : String := "git.commit.author.date"

def keyGitCommitCommitterName : String := "git.commit.committer.name"

def keyGitCommitCommitterEmail : String := "git.commit.committer.email"

def keyGitCommitCommitterDate : String := "git.commit.committer.date"

def keyCIEnvVars : String := "_dd.ci.env_vars"

/-- Embedding of `firstEnv` (ci_providers.go:140-149): first variable that is
set to a non-empty value; a variable set to `""` does not stop the scan. -/
def firstEnv (env : Env) : List String → String
  | [] => ""
  | k :: rest =>
    match env k with
    | some v => if v ≠ "" then v else firstEnv env rest
    | none => firstEnv env rest

/-- Embedding of `getEnvironmentVariableIfIsNotEmpty`
(ci_providers.go:108-114). -/
def getEnvironmentVariableIfIsNotEmpty (env : Env) (key dflt : String) : String :=
  match env key with
  | some v => if v ≠ "" then v else dflt
  | none => dflt

/-- ASCII space class of Go `unicode.IsSpace` (the Latin-1/Unicode extras
such as NBSP do not occur in the claims' inputs). -/
def goIsSpace (c : Char) : Bool :=
  c = ' ' || c = '\t' || c = '\n' || c = Char.ofNat 11 || c = Char.ofNat 12 || c = '\r'

/-- Embedding of Go `strings.TrimSpace`. -/
def trimSpace (s : String) : String :=
  String.mk (((s.data.dropWhile goIsSpace).reverse.dropWhile goIsSpace).reverse)

/-- Split a character list at every delimiter (delimiters dropped). -/
def splitOnPred (p : Char → Bool) : List Char → List (List Char)
  | [] => [[]]
  | c :: t =>
    match splitOnPred p t with
    | [] => [[]]
    | g :: gs => if p c then [] :: g :: gs else (c :: g) :: gs

/-- Embedding of Go `strings.FieldsFunc`: split around runs of delimiter
characters, omitting empty fields (so a string with no delimiter yields one
field, and the empty string yields no field at all). -/
def fieldsFunc (p : Char → Bool) (s : String) : List String :=
  ((splitOnPred p s.data).filter (fun g => !g.isEmpty)).map String.mk

/-- Curly-brace cutset of the `strings.Trim(v, "...")` call in the Bitbucket
extractor (the braces are written via code points). -/
def isCurly (c : Char) : Bool := c = Char.ofNat 123 || c = Char.ofNat 125

/-- Embedding of `strings.Trim(v, cutset)` for the curly-brace cutset. -/
def trimCurly (s : String) : String :=
  String.mk (((s.data.dropWhile isCurly).reverse.dropWhile isCurly).reverse)

/-- Replace every non-overlapping occurrence of the literal pattern `pat`
by `rep`, scanning left to right (embedding of `ReplaceAll` with a literal
pattern, used for the GitLab pipeline-URL rewrite).  The scan consumes at
least one character per step, so the `fuel` argument — always instantiated
with the input length — only serves to make the recursion structural. -/
def replaceAllSubList (pat rep : List Char) : Nat → List Char → List Char
  | 0, _ => []
  | _, [] => []
  | fuel + 1, c :: t =>
    if pat ≠ [] && listStartsWith (c :: t) pat then
      rep ++ replaceAllSubList pat rep fuel (t.drop (pat.length - 1))
    else
      c :: replaceAllSubList pat rep fuel t

/-- String version of `replaceAllSubList`. -/
def replaceAllSub (pat rep s : String) : String :=
  String.mk (replaceAllSubList pat.data rep.data s.data.length s.data)

/-- Scheme alternation `https?://` of `filterSensitiveInfo`; the greedy
optional `s?` prefers `https://`. -/
def schemeOf (l : List Char) : Option (List Char) :=
  if listStartsWith l "https://".data then some "https://".data
  else if listStartsWith l "http://".data then some "http://".data
  else none

/-- One leftmost-greedy match of `(https?://)[^/]*@` starting at the head of
`l`: the credential run extends to the last `@` before the first `/`.
Returns the total number of consumed characters and the retained scheme
(the `$1` replacement). -/
def credConsume (l : List Char) : Option (Nat × List Char) :=
  match schemeOf l with
  | none => none
  | some sch =>
    let run := (l.drop sch.length).takeWhile (fun c => c != '/')
    if run.contains '@' then
      let keep := run.length - (run.reverse.takeWhile (fun c => c != '@')).length
      some (sch.length + keep, sch)
    else none

/-- Left-to-right scan of `ReplaceAll` for the credential pattern; the
`fuel` argument (instantiated with the input length, consumed one unit per
character step) makes the recursion structural. -/
def fsiAux : Nat → List Char → List Char
  | 0, _ => []
  | _, [] => []
  | fuel + 1, c :: t =>
    match credConsume (c :: t) with
    | some (n, sch) => sch ++ fsiAux fuel (t.drop (n - 1))
    | none => c :: fsiAux fuel t

/-- Embedding of `filterSensitiveInfo` (ci_providers.go:124-126): strip
`user:password@`-style credentials after the URL scheme. -/
def filterSensitiveInfo (url : String) : String :=
  String.mk (fsiAux url.data.length url.data)

/-- Boolean lexicographic order on character lists (by code point), used to
model the deterministic key ordering of Go `json.Marshal` on maps. -/
def listCharLt : List Char → List Char → Bool
  | [], [] => false
  | [], _ :: _ => true
  | _ :: _, [] => false
  | a :: as, b :: bs => a.toNat < b.toNat || (a == b && listCharLt as bs)

/-- Insertion step of the key sort for `jsonMarshalMap`. -/
def insertSorted (p : String × String) : Tags → Tags
  | [] => [p]
  | q :: t =>
    if listCharLt q.1.data p.1.data then q :: insertSorted p t else p :: q :: t

/-- Sort an association list by key (Go `json.Marshal` emits map keys in
sorted order). -/
def sortByKey : Tags → Tags
  | [] => []
  | p :: t => insertSorted p (sortByKey t)

/-- JSON string escaping for the common escapes; the `\uXXXX` forms for other
control characters and Go's HTML-safe escaping of angle brackets and
ampersands are not modelled (no claim inspects such values). -/
def jsonEscapeChar (c : Char) : String :=
  if c = '"' then "\\\""
  else if c = '\\' then "\\\\"
  else if c = '\n' then "\\n"
  else if c = '\t' then "\\t"
  else if c = '\r' then "\\r"
  else String.mk [c]

/-- Escape a string for JSON output. -/
def jsonEscape (s : String) : String := String.join (s.data.map jsonEscapeChar)

/-- Embedding of `json.Marshal` on a `map[string]string`: keys sorted,
rendered as a JSON object. -/
def jsonMarshalMap (m : Tags) : String :=
  "\x7b" ++
    String.intercalate ","
      ((sortByKey m).map
        (fun p => "\"" ++ jsonEscape p.1 ++ "\":\"" ++ jsonEscape p.2 ++ "\"")) ++
  "\x7d"

/-- Embedding of `extractAppveyor` (ci_providers.go:151-175). -/
def extractAppveyor (env : Env) : Tags :=
  let url := "https://ci.appveyor.com/project/" ++ getenv env "APPVEYOR_REPO_NAME" ++
    "/builds/" ++ getenv env "APPVEYOR_BUILD_ID"
  let t := setTag [] keyCIProviderName "appveyor"
  let t := if getenv env "APPVEYOR_REPO_PROVIDER" = "github" then
      setTag t keyGitRepositoryURL
        ("https://github.com/" ++ getenv env "APPVEYOR_REPO_NAME" ++ ".git")
    else setTag t keyGitRepositoryURL (getenv env "APPVEYOR_REPO_NAME")
  let t := setTag t keyGitCommitSHA (getenv env "APPVEYOR_REPO_COMMIT")
  let t := setTag t keyGitBranch
    (firstEnv env ["APPVEYOR_PULL_REQUEST_HEAD_REPO_BRANCH", "APPVEYOR_REPO_BRANCH"])
  let t := setTag t keyGitTag (getenv env "APPVEYOR_REPO_TAG_NAME")
  let t := setTag t keyCIWorkspacePath (getenv env "APPVEYOR_BUILD_FOLDER")
  let t := setTag t keyCIPipelineID (getenv env "APPVEYOR_BUILD_ID")
  let t := setTag t keyCIPipelineName (getenv env "APPVEYOR_REPO_NAME")
  let t := setTag t keyCIPipelineNumber (getenv env "APPVEYOR_BUILD_NUMBER")
  let t := setTag t keyCIPipelineURL url
  let t := setTag t keyCIJobURL url
  let t := setTag t keyGitCommitMessage
    (getenv env "APPVEYOR_REPO_COMMIT_MESSAGE" ++ "\n" ++
      getenv env "APPVEYOR_REPO_COMMIT_MESSAGE_EXTENDED")
  let t := setTag t keyGitCommitAuthorName (getenv env "APPVEYOR_REPO_COMMIT_AUTHOR")
  let t := setTag t keyGitCommitAuthorEmail (getenv env "APPVEYOR_REPO_COMMIT_AUTHOR_EMAIL")
  t

/-- Embedding of `extractAzurePipelines` (ci_providers.go:177-223). -/
def extractAzurePipelines (env : Env) : Tags :=
  let baseURL := getenv env "SYSTEM_TEAMFOUNDATIONSERVERURI" ++
    getenv env "SYSTEM_TEAMPROJECTID" ++ "/_build/results?buildId=" ++
    getenv env "BUILD_BUILDID"
  let jobURL := baseURL ++ "&view=logs&j=" ++ getenv env "SYSTEM_JOBID" ++
    "&t=" ++ getenv env "SYSTEM_TASKINSTANCEID"
  let branchOrTag := firstEnv env
    ["SYSTEM_PULLREQUEST_SOURCEBRANCH", "BUILD_SOURCEBRANCH", "BUILD_SOURCEBRANCHNAME"]
  let tag := if strContains branchOrTag "tags/" then branchOrTag else ""
  let branch := if strContains branchOrTag "tags/" then "" else branchOrTag
  let t := setTag [] keyCIProviderName "azurepipelines"
  let t := setTag t keyCIWorkspacePath (getenv env "BUILD_SOURCESDIRECTORY")
  let t := setTag t keyCIPipelineID (getenv env "BUILD_BUILDID")
  let t := setTag t keyCIPipelineName (getenv env "BUILD_DEFINITIONNAME")
  let t := setTag t keyCIPipelineNumber (getenv env "BUILD_BUILDID")
  let t := setTag t keyCIPipelineURL baseURL
  let t := setTag t keyCIStageName (getenv env "SYSTEM_STAGEDISPLAYNAME")
  let t := setTag t keyCIJobName (getenv env "SYSTEM_JOBDISPLAYNAME")
  let t := setTag t keyCIJobURL jobURL
  let t := setTag t keyGitRepositoryURL
    (firstEnv env ["SYSTEM_PULLREQUEST_SOURCEREPOSITORYURI", "BUILD_REPOSITORY_URI"])
  let t := setTag t keyGitCommitSHA
    (firstEnv env ["SYSTEM_PULLREQUEST_SOURCECOMMITID", "BUILD_SOURCEVERSION"])
  let t := setTag t keyGitBranch branch
  let t := setTag t keyGitTag tag
  let t := setTag t keyGitCommitMessage (getenv env "BUILD_SOURCEVERSIONMESSAGE")
  let t := setTag t keyGitCommitAuthorName (getenv env "BUILD_REQUESTEDFORID")
  let t := setTag t keyGitCommitAuthorEmail (getenv env "BUILD_REQUESTEDFOREMAIL")
  let t := setTag t keyCIEnvVars (jsonMarshalMap (removeEmpty
    [("SYSTEM_TEAMPROJECTID", getenv env "SYSTEM_TEAMPROJECTID"),
     ("BUILD_BUILDID", getenv env "BUILD_BUILDID"),
     ("SYSTEM_JOBID", getenv env "SYSTEM_JOBID")]))
  t

/-- Embedding of `extractBitrise` (ci_providers.go:225-239). -/
def extractBitrise (env : Env) : Tags :=
  let t := setTag [] keyCIProviderName "bitrise"
  let t := setTag t keyGitRepositoryURL (getenv env "GIT_REPOSITORY_URL")
  let t := setTag t keyGitCommitSHA
    (firstEnv env ["BITRISE_GIT_COMMIT", "GIT_CLONE_COMMIT_HASH"])
  let t := setTag t keyGitBranch
    (firstEnv env ["BITRISEIO_GIT_BRANCH_DEST", "BITRISE_GIT_BRANCH"])
  let t := setTag t keyGitTag (getenv env "BITRISE_GIT_TAG")
  let t := setTag t keyCIWorkspacePath (getenv env "BITRISE_SOURCE_DIR")
  let t := setTag t keyCIPipelineID (getenv env "BITRISE_BUILD_SLUG")
  let t := setTag t keyCIPipelineName (getenv env "BITRISE_TRIGGERED_WORKFLOW_ID")
  let t := setTag t keyCIPipelineNumber (getenv env "BITRISE_BUILD_NUMBER")
  let t := setTag t keyCIPipelineURL (getenv env "BITRISE_BUILD_URL")
  let t := setTag t keyGitCommitMessage (getenv env "BITRISE_GIT_MESSAGE")
  t

/-- Embedding of `extractBitbucket` (ci_providers.go:241-256). -/
def extractBitbucket (env : Env) : Tags :=
  let url := "https://bitbucket.org/" ++ getenv env "BITBUCKET_REPO_FULL_NAME" ++
    "/addon/pipelines/home#!/results/" ++ getenv env "BITBUCKET_BUILD_NUMBER"
  let t := setTag [] keyCIProviderName "bitbucket"
  let t := setTag t keyGitRepositoryURL (getenv env "BITBUCKET_GIT_SSH_ORIGIN")
  let t := setTag t keyGitCommitSHA (getenv env "BITBUCKET_COMMIT")
  let t := setTag t keyGitBranch (getenv env "BITBUCKET_BRANCH")
  let t := setTag t keyGitTag (getenv env "BITBUCKET_TAG")
  let t := setTag t keyCIWorkspacePath (getenv env "BITBUCKET_CLONE_DIR")
  let t := setTag t keyCIPipelineID (trimCurly (getenv env "BITBUCKET_PIPELINE_UUID"))
  let t := setTag t keyCIPipelineNumber (getenv env "BITBUCKET_BUILD_NUMBER")
  let t := setTag t keyCIPipelineName (getenv env "BITBUCKET_REPO_FULL_NAME")
  let t := setTag t keyCIPipelineURL url
  let t := setTag t keyCIJobURL url
  t

/-- Embedding of `extractBuddy` (ci_providers.go:258-273). -/
def extractBuddy (env : Env) : Tags :=
  let t := setTag [] keyCIProviderName "buddy"
  let t := setTag t keyCIPipelineID
    (getenv env "BUDDY_PIPELINE_ID" ++ "/" ++ getenv env "BUDDY_EXECUTION_ID")
  let t := setTag t keyCIPipelineName (getenv env "BUDDY_PIPELINE_NAME")
  let t := setTag t keyCIPipelineNumber (getenv env "BUDDY_EXECUTION_ID")
  let t := setTag t keyCIPipelineURL (getenv env "BUDDY_EXECUTION_URL")
  let t := setTag t keyGitCommitSHA (getenv env "BUDDY_EXECUTION_REVISION")
  let t := setTag t keyGitRepositoryURL (getenv env "BUDDY_SCM_URL")
  let t := setTag t keyGitBranch (getenv env "BUDDY_EXECUTION_BRANCH")
  let t := setTag t keyGitTag (getenv env "BUDDY_EXECUTION_TAG")
  let t := setTag t keyGitCommitMessage (getenv env "BUDDY_EXECUTION_REVISION_MESSAGE")
  let t := setTag t keyGitCommitCommitterName
    (getenv env "BUDDY_EXECUTION_REVISION_COMMITTER_NAME")
  let t := setTag t keyGitCommitCommitterEmail
    (getenv env "BUDDY_EXECUTION_REVISION_COMMITTER_EMAIL")
  t

/-- Embedding of `extractBuildkite` (ci_providers.go:275-303). -/
def extractBuildkite (env : Env) : Tags :=
  let t := setTag [] keyGitBranch (getenv env "BUILDKITE_BRANCH")
  let t := setTag t keyGitCommitSHA (getenv env "BUILDKITE_COMMIT")
  let t := setTag t keyGitRepositoryURL (getenv env "BUILDKITE_REPO")
  let t := setTag t keyGitTag (getenv env "BUILDKITE_TAG")
  let t := setTag t keyCIPipelineID (getenv env "BUILDKITE_BUILD_ID")
  let t := setTag t keyCIPipelineName (getenv env "BUILDKITE_PIPELINE_SLUG")
  let t := setTag t keyCIPipelineNumber (getenv env "BUILDKITE_BUILD_NUMBER")
  let t := setTag t keyCIPipelineURL (getenv env "BUILDKITE_BUILD_URL")
  let t := setTag t keyCIJobURL
    (getenv env "BUILDKITE_BUILD_URL" ++ "#" ++ getenv env "BUILDKITE_JOB_ID")
  let t := setTag t keyCIProviderName "buildkite"
  let t := setTag t keyCIWorkspacePath (getenv env "BUILDKITE_BUILD_CHECKOUT_PATH")
  let t := setTag t keyGitCommitMessage (getenv env "BUILDKITE_MESSAGE")
  let t := setTag t keyGitCommitAuthorName (getenv env "BUILDKITE_BUILD_AUTHOR")
  let t := setTag t keyGitCommitAuthorEmail (getenv env "BUILDKITE_BUILD_AUTHOR_EMAIL")
  let t := setTag t keyCIEnvVars (jsonMarshalMap (removeEmpty
    [("BUILDKITE_BUILD_ID", getenv env "BUILDKITE_BUILD_ID"),
     ("BUILDKITE_JOB_ID", getenv env "BUILDKITE_JOB_ID")]))
  t

/-- Embedding of `extractCircleCI` (ci_providers.go:305-331). -/
def extractCircleCI (env : Env) : Tags :=
  let t := setTag [] keyCIProviderName "circleci"
  let t := setTag t keyGitRepositoryURL (getenv env "CIRCLE_REPOSITORY_URL")
  let t := setTag t keyGitCommitSHA (getenv env "CIRCLE_SHA1")
  let t := setTag t keyGitTag (getenv env "CIRCLE_TAG")
  let t := setTag t keyGitBranch (getenv env "CIRCLE_BRANCH")
  let t := setTag t keyCIWorkspacePath (getenv env "CIRCLE_WORKING_DIRECTORY")
  let t := setTag t keyCIPipelineID (getenv env "CIRCLE_WORKFLOW_ID")
  let t := setTag t keyCIPipelineName (getenv env "CIRCLE_PROJECT_REPONAME")
  let t := setTag t keyCIPipelineNumber (getenv env "CIRCLE_BUILD_NUM")
  let t := setTag t keyCIPipelineURL
    ("https://app.circleci.com/pipelines/workflows/" ++ getenv env "CIRCLE_WORKFLOW_ID")
  let t := setTag t keyCIJobName (getenv env "CIRCLE_JOB")
  let t := setTag t keyCIJobURL (getenv env "CIRCLE_BUILD_URL")
  let t := setTag t keyCIEnvVars (jsonMarshalMap (removeEmpty
    [("CIRCLE_BUILD_NUM", getenv env "CIRCLE_BUILD_NUM"),
     ("CIRCLE_WORKFLOW_ID", getenv env "CIRCLE_WORKFLOW_ID")]))
  t

/-- Embedding of `extractGithubActions` (ci_providers.go:333-386). -/
def extractGithubActions (env : Env) : Tags :=
  let branchOrTag := firstEnv env ["GITHUB_HEAD_REF", "GITHUB_REF"]
  let tag := if strContains branchOrTag "tags/" then branchOrTag else ""
  let branch := if strContains branchOrTag "tags/" then "" else branchOrTag
  let serverUrl0 := getenv env "GITHUB_SERVER_URL"
  let serverUrl1 := if serverUrl0 = "" then "https://github.com" else serverUrl0
  let serverUrl := trimSuffixStr serverUrl1 "/"
  let rawRepository := serverUrl ++ "/" ++ getenv env "GITHUB_REPOSITORY"
  let pipelineId := getenv env "GITHUB_RUN_ID"
  let commitSha := getenv env "GITHUB_SHA"
  let t := setTag [] keyCIProviderName "github"
  let t := setTag t keyGitRepositoryURL (rawRepository ++ ".git")
  let t := setTag t keyGitCommitSHA commitSha
  let t := setTag t keyGitBranch branch
  let t := setTag t keyGitTag tag
  let t := setTag t keyCIWorkspacePath (getenv env "GITHUB_WORKSPACE")
  let t := setTag t keyCIPipelineID pipelineId
  let t := setTag t keyCIPipelineNumber (getenv env "GITHUB_RUN_NUMBER")
  let t := setTag t keyCIPipelineName (getenv env "GITHUB_WORKFLOW")
  let t := setTag t keyCIJobURL (rawRepository ++ "/commit/" ++ commitSha ++ "/checks")
  let t := setTag t keyCIJobName (getenv env "GITHUB_JOB")
  let attempts := getenv env "GITHUB_RUN_ATTEMPT"
  let t := if attempts = "" then
      setTag t keyCIPipelineURL (rawRepository ++ "/actions/runs/" ++ pipelineId)
    else
      setTag t keyCIPipelineURL
        (rawRepository ++ "/actions/runs/" ++ pipelineId ++ "/attempts/" ++ attempts)
  let t := setTag t keyCIEnvVars (jsonMarshalMap (removeEmpty
    [("GITHUB_SERVER_URL", getenv env "GITHUB_SERVER_URL"),
     ("GITHUB_REPOSITORY", getenv env "GITHUB_REPOSITORY"),
     ("GITHUB_RUN_ID", getenv env "GITHUB_RUN_ID"),
     ("GITHUB_RUN_ATTEMPT", getenv env "GITHUB_RUN_ATTEMPT")]))
  t

/-- Embedding of `extractGitlab` (ci_providers.go:388-429).  The source
splits `CI_COMMIT_AUTHOR` on `<`/`>` and indexes elements 0 and 1 of the
result unconditionally; when the author string yields fewer than two fields
(unset, or missing the angle-bracket email delimiters) the Go code panics
with an index-out-of-range fault, modelled here as `none`.  (The partial map
mutations performed before the fault are unobservable because the panic
aborts the whole `GetProviderTags` call.) -/
def extractGitlab (env : Env) : Option Tags :=
  let url0 := getenv env "CI_PIPELINE_URL"
  let url1 := replaceAllSub "/-/pipelines/" "/pipelines/" url0
  let url := replaceAllSub "/-/pipelines/" "/pipelines/" url1
  let t := setTag [] keyCIProviderName "gitlab"
  let t := setTag t keyGitRepositoryURL (getenv env "CI_REPOSITORY_URL")
  let t := setTag t keyGitCommitSHA (getenv env "CI_COMMIT_SHA")
  let t := setTag t keyGitBranch (firstEnv env ["CI_COMMIT_BRANCH", "CI_COMMIT_REF_NAME"])
  let t := setTag t keyGitTag (getenv env "CI_COMMIT_TAG")
  let t := setTag t keyCIWorkspacePath (getenv env "CI_PROJECT_DIR")
  let t := setTag t keyCIPipelineID (getenv env "CI_PIPELINE_ID")
  let t := setTag t keyCIPipelineName (getenv env "CI_PROJECT_PATH")
  let t := setTag t keyCIPipelineNumber (getenv env "CI_PIPELINE_IID")
  let t := setTag t keyCIPipelineURL url
  let t := setTag t keyCIJobURL (getenv env "CI_JOB_URL")
  let t := setTag t keyCIJobName (getenv env "CI_JOB_NAME")
  let t := setTag t keyCIStageName (getenv env "CI_JOB_STAGE")
  let t := setTag t keyGitCommitMessage (getenv env "CI_COMMIT_MESSAGE")
  let author := getenv env "CI_COMMIT_AUTHOR"
  match fieldsFunc (fun c => c = '<' || c = '>') author with
  | a :: b :: _ =>
    let t := setTag t keyGitCommitAuthorName (trimSpace a)
    let t := setTag t keyGitCommitAuthorEmail (trimSpace b)
    let t := setTag t keyGitCommitAuthorDate (getenv env "CI_COMMIT_TIMESTAMP")
    let t := setTag t keyCIEnvVars (jsonMarshalMap (removeEmpty
      [("CI_PROJECT_URL", getenv env "CI_PROJECT_URL"),
       ("CI_PIPELINE_ID", getenv env "CI_PIPELINE_ID"),
       ("CI_JOB_ID", getenv env "CI_JOB_ID")]))
    some t
  | _ => none

/-- Delete every job-name segment of the shape `/[^/]+=[^/]*` (the
`removeVars` rewrite of the Jenkins extractor): a `/`-delimited segment is
deleted when it contains `=` at position one or later.  The `fuel` argument
(instantiated with the input length) makes the recursion structural. -/
def removeVarSegs : Nat → List Char → List Char
  | 0, _ => []
  | _, [] => []
  | fuel + 1, c :: t =>
    if c = '/' then
      let run := t.takeWhile (fun x => x != '/')
      if (run.drop 1).contains '=' then removeVarSegs fuel (t.drop run.length)
      else c :: removeVarSegs fuel t
    else c :: removeVarSegs fuel t

/-- Embedding of `extractJenkins` (ci_providers.go:431-471).  The source
compiles the normalized branch into a regular expression
(`regexp.MustCompile("/" + normalizeRef(branchOrTag))`) and deletes its
matches from the job name; it is modelled here as literal-substring removal,
which coincides with the source whenever the ref contains no regular
expression metacharacters. -/
def extractJenkins (env : Env) : Tags :=
  let t := setTag [] keyCIProviderName "jenkins"
  let t := setTag t keyGitRepositoryURL (firstEnv env ["GIT_URL", "GIT_URL_1"])
  let t := setTag t keyGitCommitSHA (getenv env "GIT_COMMIT")
  let branchOrTag := getenv env "GIT_BRANCH"
  let nameOpt := env "JOB_NAME"
  let name0 := nameOpt.getD ""
  let step := if strContains branchOrTag "tags/" then
      (setTag t keyGitTag branchOrTag, name0)
    else
      (setTag t keyGitBranch branchOrTag,
        replaceAllSub ("/" ++ normalizeRef branchOrTag) "" name0)
  let t := step.1
  let name1 := step.2
  let name := if nameOpt.isSome then String.mk (removeVarSegs name1.data.length name1.data) else name1
  let t := setTag t keyCIWorkspacePath (getenv env "WORKSPACE")
  let t := setTag t keyCIPipelineID (getenv env "BUILD_TAG")
  let t := setTag t keyCIPipelineNumber (getenv env "BUILD_NUMBER")
  let t := setTag t keyCIPipelineName name
  let t := setTag t keyCIPipelineURL (getenv env "BUILD_URL")
  let t := setTag t keyCIEnvVars (jsonMarshalMap (removeEmpty
    [("DD_CUSTOM_TRACE_ID", getenv env "DD_CUSTOM_TRACE_ID")]))
  t

/-- Embedding of `extractTeamcity` (ci_providers.go:473-483). -/
def extractTeamcity (env : Env) : Tags :=
  let t := setTag [] keyCIProviderName "teamcity"
  let t := setTag t keyGitRepositoryURL (getenv env "BUILD_VCS_URL")
  let t := setTag t keyGitCommitSHA (getenv env "BUILD_VCS_NUMBER")
  let t := setTag t keyCIWorkspacePath (getenv env "BUILD_CHECKOUTDIR")
  let t := setTag t keyCIPipelineID (getenv env "BUILD_ID")
  let t := setTag t keyCIPipelineNumber (getenv env "BUILD_NUMBER")
  let t := setTag t keyCIPipelineURL
    (getenv env "SERVER_URL" ++ "/viewLog.html?buildId=" ++ getenv env "BUILD_ID")
  t

/-- Embedding of `extractTravis` (ci_providers.go:485-505). -/
def extractTravis (env : Env) : Tags :=
  let prSlug := getenv env "TRAVIS_PULL_REQUEST_SLUG"
  let repoSlug := if trimSpace prSlug = "" then getenv env "TRAVIS_REPO_SLUG" else prSlug
  let t := setTag [] keyCIProviderName "travisci"
  let t := setTag t keyGitRepositoryURL ("https://github.com/" ++ repoSlug ++ ".git")
  let t := setTag t keyGitCommitSHA (getenv env "TRAVIS_COMMIT")
  let t := setTag t keyGitTag (getenv env "TRAVIS_TAG")
  let t := setTag t keyGitBranch
    (firstEnv env ["TRAVIS_PULL_REQUEST_BRANCH", "TRAVIS_BRANCH"])
  let t := setTag t keyCIWorkspacePath (getenv env "TRAVIS_BUILD_DIR")
  let t := setTag t keyCIPipelineID (getenv env "TRAVIS_BUILD_ID")
  let t := setTag t keyCIPipelineNumber (getenv env "TRAVIS_BUILD_NUMBER")
  let t := setTag t keyCIPipelineName repoSlug
  let t := setTag t keyCIPipelineURL (getenv env "TRAVIS_BUILD_WEB_URL")
  let t := setTag t keyCIJobURL (getenv env "TRAVIS_JOB_WEB_URL")
  let t := setTag t keyGitCommitMessage (getenv env "TRAVIS_COMMIT_MESSAGE")
  t

/-- Trigger variables of the provider registry (ci_providers.go:21-34). -/
def providerKeys : List String :=
  ["APPVEYOR", "TF_BUILD", "BITBUCKET_COMMIT", "BUDDY", "BUILDKITE", "CIRCLECI",
   "GITHUB_SHA", "GITLAB_CI", "JENKINS_URL", "TEAMCITY_VERSION", "TRAVIS",
   "BITRISE_BUILD_SLUG"]

/-- The extractor associated with a trigger variable. -/
def providerExtract (key : String) (env : Env) : Option Tags :=
  if key = "APPVEYOR" then some (extractAppveyor env)
  else if key = "TF_BUILD" then some (extractAzurePipelines env)
  else if key = "BITBUCKET_COMMIT" then some (extractBitbucket env)
  else if key = "BUDDY" then some (extractBuddy env)
  else if key = "BUILDKITE" then some (extractBuildkite env)
  else if key = "CIRCLECI" then some (extractCircleCI env)
  else if key = "GITHUB_SHA" then some (extractGithubActions env)
  else if key = "GITLAB_CI" then extractGitlab env
  else if key = "JENKINS_URL" then some (extractJenkins env)
  else if key = "TEAMCITY_VERSION" then some (extractTeamcity env)
  else if key = "TRAVIS" then some (extractTravis env)
  else if key = "BITRISE_BUILD_SLUG" then some (extractBitrise env)
  else some []

/-- The provider-selection loop of `GetProviderTags` (ci_providers.go:47-52):
every provider whose trigger variable is present (regardless of its value)
replaces the accumulated tags with its own output; a panicking extractor
aborts the whole call (`none`).  Go iterates the `providers` map in an
unspecified order, abstracted by the explicit `order` argument (the theorems
quantify over permutations of `providerKeys`). -/
def runProviders (env : Env) : List String → Tags → Option Tags
  | [], acc => some acc
  | k :: rest, acc =>
    if (env k).isSome then
      match providerExtract k env with
      | some t => runProviders env rest t
      | none => none
    else runProviders env rest acc

/-- Embedding of `replaceWithUserSpecificTags` (ci_providers.go:89-106): each
of the eleven override variables unconditionally assigns its tag (keeping the
previous value — the zero value `""` for an absent key — when the variable is
unset or empty). -/
def replaceWithUserSpecificTags (env : Env) (t : Tags) : Tags :=
  let rep := fun (t : Tags) (tagName envName : String) =>
    setTag t tagName (getEnvironmentVariableIfIsNotEmpty env envName (getTagD t tagName))
  let t := rep t keyGitBranch "DD_GIT_BRANCH"
  let t := rep t keyGitTag "DD_GIT_TAG"
  let t := rep t keyGitRepositoryURL "DD_GIT_REPOSITORY_URL"
  let t := rep t keyGitCommitSHA "DD_GIT_COMMIT_SHA"
  let t := rep t keyGitCommitMessage "DD_GIT_COMMIT_MESSAGE"
  let t := rep t keyGitCommitAuthorName "DD_GIT_COMMIT_AUTHOR_NAME"
  let t := rep t keyGitCommitAuthorEmail "DD_GIT_COMMIT_AUTHOR_EMAIL"
  let t := rep t keyGitCommitAuthorDate "DD_GIT_COMMIT_AUTHOR_DATE"
  let t := rep t keyGitCommitCommitterName "DD_GIT_COMMIT_COMMITTER_NAME"
  let t := rep t keyGitCommitCommitterEmail "DD_GIT_COMMIT_COMMITTER_EMAIL"
  let t := rep t keyGitCommitCommitterDate "DD_GIT_COMMIT_COMMITTER_DATE"
  t

/-- First block of `normalizeTags` (ci_providers.go:75-80): when the branch
value is present and non-empty, write the normalized branch back, first also
writing it to the tag key when the raw value contains a tag-shaped
substring. -/
def normalizeBranchStep (t : Tags) : Tags :=
  match getTag t keyGitBranch with
  | some tag =>
    if tag ≠ "" then
      let t' := if strContains tag "refs/tags" || strContains tag "origin/tags" ||
          strContains tag "refs/heads/tags" then
          setTag t keyGitTag (normalizeRef tag)
        else t
      setTag t' keyGitBranch (normalizeRef tag)
    else t
  | none => t

/-- Second block of `normalizeTags` (ci_providers.go:81-83): normalize a
present, non-empty tag value (note this re-normalizes a tag value just
written by the branch block). -/
def normalizeTagStep (t : Tags) : Tags :=
  match getTag t keyGitTag with
  | some tag => if tag ≠ "" then setTag t keyGitTag (normalizeRef tag) else t
  | none => t

/-- Third block of `normalizeTags` (ci_providers.go:84-86): strip credentials
from a present, non-empty repository URL. -/
def normalizeURLStep (t : Tags) : Tags :=
  match getTag t keyGitRepositoryURL with
  | some tag =>
    if tag ≠ "" then setTag t keyGitRepositoryURL (filterSensitiveInfo tag) else t
  | none => t

/-- Embedding of `normalizeTags` (ci_providers.go:74-87): the three blocks in
source order. -/
def normalizeTags (t : Tags) : Tags :=
  normalizeURLStep (normalizeTagStep (normalizeBranchStep t))

/-- Embedding of the workspace-path expansion step of `GetProviderTags`
(ci_providers.go:61-66).  Home-directory expansion is the external
`go-homedir` library, abstracted as `expand` (with `none` for an error, in
which case the original value is kept). -/
def expandWorkspace (expand : String → Option String) (t : Tags) : Tags :=
  match getTag t keyCIWorkspacePath with
  | some tag =>
    if tag ≠ "" then
      match expand tag with
      | some v => setTag t keyCIWorkspacePath v
      | none => t
    else t
  | none => t

/-- The post-selection pipeline of `GetProviderTags` (ci_providers.go:54-71):
user overrides, normalization, workspace expansion, empty-value pruning. -/
def postProcess (env : Env) (expand : String → Option String) (t : Tags) : Tags :=
  removeEmpty (expandWorkspace expand (normalizeTags (replaceWithUserSpecificTags env t)))

/-- Embedding of `GetProviderTags` (ci_providers.go:45-72), parameterized by
the map-iteration order of the provider registry and by the external
home-directory expander.  `none` models a panic escaping the call. -/
def GetProviderTags (order : List String) (env : Env)
    (expand : String → Option String) : Option Tags :=
  (runProviders env order []).map (postProcess env expand)

theorem keysOk_extractAppveyor (env : Env) : keysOk (extractAppveyor env) := by
  unfold extractAppveyor
  repeat first
    | exact keysOk_nil
    | apply keysOk_setTag
    | split

theorem keysOk_extractAzurePipelines (env : Env) : keysOk (extractAzurePipelines env) := by
  unfold extractAzurePipelines
  repeat first
    | exact keysOk_nil
    | apply keysOk_setTag
    | split

theorem keysOk_extractBitrise (env : Env) : keysOk (extractBitrise env) := by
  unfold extractBitrise
  repeat first
    | exact keysOk_nil
    | apply keysOk_setTag
    | split

theorem keysOk_extractBitbucket (env : Env) : keysOk (extractBitbucket env) := by
  unfold extractBitbucket
  repeat first
    | exact keysOk_nil
    | apply keysOk_setTag
    | split

theorem keysOk_extractBuddy (env : Env) : keysOk (extractBuddy env) := by
  unfold extractBuddy
  repeat first
    | exact keysOk_nil
    | apply keysOk_setTag
    | split

theorem keysOk_extractBuildkite (env : Env) : keysOk (extractBuildkite env) := by
  unfold extractBuildkite
  repeat first
    | exact keysOk_nil
    | apply keysOk_setTag
    | split

theorem keysOk_extractCircleCI (env : Env) : keysOk (extractCircleCI env) := by
  unfold extractCircleCI
  repeat first
    | exact keysOk_nil
    | apply keysOk_setTag
    | split

theorem keysOk_extractGithubActions (env : Env) : keysOk (extractGithubActions env) := by
  unfold extractGithubActions
  repeat first
    | exact keysOk_nil
    | apply keysOk_setTag
    | split

theorem keysOk_extractJenkins (env : Env) : keysOk (extractJenkins env) := by
  unfold extractJenkins
  repeat first
    | exact keysOk_nil
    | apply keysOk_setTag
    | split

theorem keysOk_extractTeamcity (env : Env) : keysOk (extractTeamcity env) := by
  unfold extractTeamcity
  repeat first
    | exact keysOk_nil
    | apply keysOk_setTag
    | split

theorem keysOk_extractTravis (env : Env) : keysOk (extractTravis env) := by
  unfold extractTravis
  repeat first
    | exact keysOk_nil
    | apply keysOk_setTag
    | split

theorem keysOk_extractGitlab (env : Env) {t : Tags} (h : extractGitlab env = some t) :
    keysOk t := by
  unfold extractGitlab at h
  dsimp only at h
  split at h
  · injection h with h
    subst h
    repeat first
      | exact keysOk_nil
      | apply keysOk_setTag
  · cases h

theorem keysOk_providerExtract {key : String} {env : Env} {t : Tags}
    (h : providerExtract key env = some t) : keysOk t := by
  unfold providerExtract at h
  by_cases h1 : key = "APPVEYOR"
  · rw [if_pos h1] at h; injection h with h; subst h; exact keysOk_extractAppveyor env
  rw [if_neg h1] at h
  by_cases h2 : key = "TF_BUILD"
  · rw [if_pos h2] at h; injection h with h; subst h
    exact keysOk_extractAzurePipelines env
  rw [if_neg h2] at h
  by_cases h3 : key = "BITBUCKET_COMMIT"
  · rw [if_pos h3] at h; injection h with h; subst h; exact keysOk_extractBitbucket env
  rw [if_neg h3] at h
  by_cases h4 : key = "BUDDY"
  · rw [if_pos h4] at h; injection h with h; subst h; exact keysOk_extractBuddy env
  rw [if_neg h4] at h
  by_cases h5 : key = "BUILDKITE"
  · rw [if_pos h5] at h; injection h with h; subst h; exact keysOk_extractBuildkite env
  rw [if_neg h5] at h
  by_cases h6 : key = "CIRCLECI"
  · rw [if_pos h6] at h; injection h with h; subst h; exact keysOk_extractCircleCI env
  rw [if_neg h6] at h
  by_cases h7 : key = "GITHUB_SHA"
  · rw [if_pos h7] at h; injection h with h; subst h
    exact keysOk_extractGithubActions env
  rw [if_neg h7] at h
  by_cases h8 : key = "GITLAB_CI"
  · rw [if_pos h8] at h; exact keysOk_extractGitlab env h
  rw [if_neg h8] at h
  by_cases h9 : key = "JENKINS_URL"
  · rw [if_pos h9] at h; injection h with h; subst h; exact keysOk_extractJenkins env
  rw [if_neg h9] at h
  by_cases h10 : key = "TEAMCITY_VERSION"
  · rw [if_pos h10] at h; injection h with h; subst h; exact keysOk_extractTeamcity env
  rw [if_neg h10] at h
  by_cases h11 : key = "TRAVIS"
  · rw [if_pos h11] at h; injection h with h; subst h; exact keysOk_extractTravis env
  rw [if_neg h11] at h
  by_cases h12 : key = "BITRISE_BUILD_SLUG"
  · rw [if_pos h12] at h; injection h with h; subst h; exact keysOk_extractBitrise env
  rw [if_neg h12] at h
  injection h with h
  subst h
  exact keysOk_nil

theorem runProviders_keysOk {env : Env} :
    ∀ (order : List String) (acc t : Tags),
    runProviders env order acc = some t → keysOk acc → keysOk t := by
  intro order
  induction order with
  | nil =>
    intro acc t h hok
    unfold runProviders at h
    injection h with h
    subst h
    exact hok
  | cons k rest ih =>
    intro acc t h hok
    unfold runProviders at h
    by_cases hp : (env k).isSome = true
    · rw [if_pos hp] at h
      cases hpe : providerExtract k env with
      | none => rw [hpe] at h; cases h
      | some t' =>
        rw [hpe] at h
        exact ih t' t h (keysOk_providerExtract hpe)
    · rw [if_neg hp] at h
      exact ih acc t h hok

theorem runProviders_absent {env : Env} :
    ∀ (order : List String) (acc : Tags),
    (∀ k ∈ order, env k = none) → runProviders env order acc = some acc := by
  intro order
  induction order with
  | nil => intro acc _; rfl
  | cons k rest ih =>
    intro acc h
    unfold runProviders
    have hk : env k = none := h k (List.mem_cons_self k rest)
    have hks : (env k).isSome = false := by rw [hk]; rfl
    rw [if_neg (by rw [hks]; exact Bool.false_ne_true)]
    exact ih acc (fun k' hk' => h k' (List.mem_cons_of_mem k hk'))

theorem runProviders_const {env : Env} {gh : Tags} :
    ∀ (order : List String),
    (∀ k ∈ order, (env k).isSome = true → providerExtract k env = some gh) →
    runProviders env order gh = some gh := by
  intro order
  induction order with
  | nil => intro _; rfl
  | cons k rest ih =>
    intro h
    unfold runProviders
    by_cases hp : (env k).isSome = true
    · rw [if_pos hp, h k (List.mem_cons_self k rest) hp]
      exact ih (fun k' hk' => h k' (List.mem_cons_of_mem k hk'))
    · rw [if_neg hp]
      exact ih (fun k' hk' => h k' (List.mem_cons_of_mem k hk'))

theorem runProviders_select {env : Env} {gh : Tags} :
    ∀ (order : List String) (acc : Tags),
    (∀ k ∈ order, (env k).isSome = true → providerExtract k env = some gh) →
    (∃ k0, k0 ∈ order ∧ (env k0).isSome = true) →
    runProviders env order acc = some gh := by
  intro order
  induction order with
  | nil =>
    intro acc _ hex
    obtain ⟨k0, hk0, _⟩ := hex
    cases hk0
  | cons k rest ih =>
    intro acc h hex
    unfold runProviders
    by_cases hp : (env k).isSome = true
    · rw [if_pos hp, h k (List.mem_cons_self k rest) hp]
      exact runProviders_const rest (fun k' hk' => h k' (List.mem_cons_of_mem k hk'))
    · rw [if_neg hp]
      obtain ⟨k0, hk0, hk0s⟩ := hex
      have hk0r : k0 ∈ rest := by
        cases List.mem_cons.mp hk0 with
        | inl he => exact absurd (he ▸ hk0s) hp
        | inr hr => exact hr
      exact ih acc (fun k' hk' => h k' (List.mem_cons_of_mem k hk')) ⟨k0, hk0r, hk0s⟩

theorem keysOk_replaceUser (env : Env) {t : Tags} (h : keysOk t) :
    keysOk (replaceWithUserSpecificTags env t) := by
  unfold replaceWithUserSpecificTags
  dsimp only
  repeat apply keysOk_setTag
  exact h

theorem keysOk_normalizeBranchStep {t : Tags} (h : keysOk t) :
    keysOk (normalizeBranchStep t) := by
  unfold normalizeBranchStep
  repeat first
    | exact h
    | apply keysOk_setTag
    | split

theorem keysOk_normalizeTagStep {t : Tags} (h : keysOk t) :
    keysOk (normalizeTagStep t) := by
  unfold normalizeTagStep
  repeat first
    | exact h
    | apply keysOk_setTag
    | split

theorem keysOk_normalizeURLStep {t : Tags} (h : keysOk t) :
    keysOk (normalizeURLStep t) := by
  unfold normalizeURLStep
  repeat first
    | exact h
    | apply keysOk_setTag
    | split

theorem keysOk_normalizeTags {t : Tags} (h : keysOk t) : keysOk (normalizeTags t) :=
  keysOk_normalizeURLStep (keysOk_normalizeTagStep (keysOk_normalizeBranchStep h))

theorem keysOk_expandWorkspace (expand : String → Option String) {t : Tags}
    (h : keysOk t) : keysOk (expandWorkspace expand t) := by
  unfold expandWorkspace
  repeat first
    | exact h
    | apply keysOk_setTag
    | split

theorem getTag_normalizeBranchStep_ne {t : Tags} {k : String}
    (hb : k ≠ keyGitBranch) (ht : k ≠ keyGitTag) :
    getTag (normalizeBranchStep t) k = getTag t k := by
  unfold normalizeBranchStep
  split
  · split
    · rw [getTag_setTag_ne _ _ hb]
      split
      · rw [getTag_setTag_ne _ _ ht]
      · rfl
    · rfl
  · rfl

theorem getTag_normalizeTagStep_ne {t : Tags} {k : String} (h : k ≠ keyGitTag) :
    getTag (normalizeTagStep t) k = getTag t k := by
  unfold normalizeTagStep
  split
  · split
    · rw [getTag_setTag_ne _ _ h]
    · rfl
  · rfl

theorem getTag_normalizeURLStep_ne {t : Tags} {k : String}
    (h : k ≠ keyGitRepositoryURL) :
    getTag (normalizeURLStep t) k = getTag t k := by
  unfold normalizeURLStep
  split
  · split
    · rw [getTag_setTag_ne _ _ h]
    · rfl
  · rfl

theorem getTag_normalizeTags_ne {t : Tags} {k : String}
    (hb : k ≠ keyGitBranch) (ht : k ≠ keyGitTag) (hu : k ≠ keyGitRepositoryURL) :
    getTag (normalizeTags t) k = getTag t k := by
  unfold normalizeTags
  rw [getTag_normalizeURLStep_ne hu, getTag_normalizeTagStep_ne ht,
    getTag_normalizeBranchStep_ne hb ht]

theorem getTag_expandWorkspace_ne (expand : String → Option String) {t : Tags}
    {k : String} (h : k ≠ keyCIWorkspacePath) :
    getTag (expandWorkspace expand t) k = getTag t k := by
  unfold expandWorkspace
  split
  · split
    · split
      · rw [getTag_setTag_ne _ _ h]
      · rfl
    · rfl
  · rfl

theorem getTag_normalizeBranchStep_branch {t : Tags} {v : String}
    (h : getTag t keyGitBranch = some v) (hv : v ≠ "") :
    getTag (normalizeBranchStep t) keyGitBranch = some (normalizeRef v) := by
  unfold normalizeBranchStep
  simp only [h]
  rw [if_pos hv, getTag_setTag_self]

theorem getTag_normalizeBranchStep_tag {t : Tags} {v : String}
    (h : getTag t keyGitBranch = some v) (hv : v ≠ "")
    (hc : (strContains v "refs/tags" || strContains v "origin/tags" ||
      strContains v "refs/heads/tags") = true) :
    getTag (normalizeBranchStep t) keyGitTag = some (normalizeRef v) := by
  unfold normalizeBranchStep
  simp only [h]
  rw [if_pos hv, getTag_setTag_ne _ _ (by decide), if_pos hc, getTag_setTag_self]

theorem getTag_normalizeTagStep_tag {t : Tags} {v : String}
    (h : getTag t keyGitTag = some v) :
    getTag (normalizeTagStep t) keyGitTag =
      some (if v = "" then v else normalizeRef v) := by
  unfold normalizeTagStep
  simp only [h]
  by_cases hv : v = ""
  · rw [if_neg (by simp [hv]), if_pos hv, h, hv]
  · rw [if_pos hv, getTag_setTag_self, if_neg hv]

theorem getTag_replaceUser_branch (env : Env) (t : Tags) {v : String}
    (h : env "DD_GIT_BRANCH" = some v) (hv : v ≠ "") :
    getTag (replaceWithUserSpecificTags env t) keyGitBranch = some v := by
  unfold replaceWithUserSpecificTags
  dsimp only
  rw [getTag_setTag_ne _ _ (by decide : keyGitBranch ≠ keyGitCommitCommitterDate),
    getTag_setTag_ne _ _ (by decide : keyGitBranch ≠ keyGitCommitCommitterEmail),
    getTag_setTag_ne _ _ (by decide : keyGitBranch ≠ keyGitCommitCommitterName),
    getTag_setTag_ne _ _ (by decide : keyGitBranch ≠ keyGitCommitAuthorDate),
    getTag_setTag_ne _ _ (by decide : keyGitBranch ≠ keyGitCommitAuthorEmail),
    getTag_setTag_ne _ _ (by decide : keyGitBranch ≠ keyGitCommitAuthorName),
    getTag_setTag_ne _ _ (by decide : keyGitBranch ≠ keyGitCommitMessage),
    getTag_setTag_ne _ _ (by decide : keyGitBranch ≠ keyGitCommitSHA),
    getTag_setTag_ne _ _ (by decide : keyGitBranch ≠ keyGitRepositoryURL),
    getTag_setTag_ne _ _ (by decide : keyGitBranch ≠ keyGitTag),
    getTag_setTag_self]
  unfold getEnvironmentVariableIfIsNotEmpty
  simp only [h]
  rw [if_pos hv]

theorem getTag_replaceUser_sha (env : Env) (t : Tags) {v : String}
    (h : env "DD_GIT_COMMIT_SHA" = some v) (hv : v ≠ "") :
    getTag (replaceWithUserSpecificTags env t) keyGitCommitSHA = some v := by
  unfold replaceWithUserSpecificTags
  dsimp only
  rw [getTag_setTag_ne _ _ (by decide : keyGitCommitSHA ≠ keyGitCommitCommitterDate),
    getTag_setTag_ne _ _ (by decide : keyGitCommitSHA ≠ keyGitCommitCommitterEmail),
    getTag_setTag_ne _ _ (by decide : keyGitCommitSHA ≠ keyGitCommitCommitterName),
    getTag_setTag_ne _ _ (by decide : keyGitCommitSHA ≠ keyGitCommitAuthorDate),
    getTag_setTag_ne _ _ (by decide : keyGitCommitSHA ≠ keyGitCommitAuthorEmail),
    getTag_setTag_ne _ _ (by decide : keyGitCommitSHA ≠ keyGitCommitAuthorName),
    getTag_setTag_ne _ _ (by decide : keyGitCommitSHA ≠ keyGitCommitMessage),
    getTag_setTag_self]
  unfold getEnvironmentVariableIfIsNotEmpty
  simp only [h]
  rw [if_pos hv]

theorem getTag_replaceUser_provider (env : Env) (t : Tags) :
    getTag (replaceWithUserSpecificTags env t) keyCIProviderName =
      getTag t keyCIProviderName := by
  unfold replaceWithUserSpecificTags
  dsimp only
  rw [getTag_setTag_ne _ _ (by decide : keyCIProviderName ≠ keyGitCommitCommitterDate),
    getTag_setTag_ne _ _ (by decide : keyCIProviderName ≠ keyGitCommitCommitterEmail),
    getTag_setTag_ne _ _ (by decide : keyCIProviderName ≠ keyGitCommitCommitterName),
    getTag_setTag_ne _ _ (by decide : keyCIProviderName ≠ keyGitCommitAuthorDate),
    getTag_setTag_ne _ _ (by decide : keyCIProviderName ≠ keyGitCommitAuthorEmail),
    getTag_setTag_ne _ _ (by decide : keyCIProviderName ≠ keyGitCommitAuthorName),
    getTag_setTag_ne _ _ (by decide : keyCIProviderName ≠ keyGitCommitMessage),
    getTag_setTag_ne _ _ (by decide : keyCIProviderName ≠ keyGitCommitSHA),
    getTag_setTag_ne _ _ (by decide : keyCIProviderName ≠ keyGitRepositoryURL),
    getTag_setTag_ne _ _ (by decide : keyCIProviderName ≠ keyGitTag),
    getTag_setTag_ne _ _ (by decide : keyCIProviderName ≠ keyGitBranch)]

theorem providerExtract_github (env : Env) :
    providerExtract "GITHUB_SHA" env = some (extractGithubActions env) := by
  rfl

theorem getTag_extractGithubActions_provider (env : Env) :
    getTag (extractGithubActions env) keyCIProviderName = some "github" := by
  unfold extractGithubActions
  dsimp only
  rw [getTag_setTag_ne _ _ (by decide : keyCIProviderName ≠ keyCIEnvVars)]
  split <;>
  · rw [getTag_setTag_ne _ _ (by decide : keyCIProviderName ≠ keyCIPipelineURL),
      getTag_setTag_ne _ _ (by decide : keyCIProviderName ≠ keyCIJobName),
      getTag_setTag_ne _ _ (by decide : keyCIProviderName ≠ keyCIJobURL),
      getTag_setTag_ne _ _ (by decide : keyCIProviderName ≠ keyCIPipelineName),
      getTag_setTag_ne _ _ (by decide : keyCIProviderName ≠ keyCIPipelineNumber),
      getTag_setTag_ne _ _ (by decide : keyCIProviderName ≠ keyCIPipelineID),
      getTag_setTag_ne _ _ (by decide : keyCIProviderName ≠ keyCIWorkspacePath),
      getTag_setTag_ne _ _ (by decide : keyCIProviderName ≠ keyGitTag),
      getTag_setTag_ne _ _ (by decide : keyCIProviderName ≠ keyGitBranch),
      getTag_setTag_ne _ _ (by decide : keyCIProviderName ≠ keyGitCommitSHA),
      getTag_setTag_ne _ _ (by decide : keyCIProviderName ≠ keyGitRepositoryURL),
      getTag_setTag_self]

/-- An environment with no variable set. -/
def emptyEnv : Env := fun _ => none

/-- An environment with a single variable set. -/
def envOnly (key val : String) : Env := fun k => if k = key then some val else none

/-- A home-directory expander that always fails (the original value is then
kept, matching the error branch of the source). -/
def noExpand : String → Option String := fun _ => none

/-- C4: for every environment (and any registry iteration order and any
expander), a tag set returned by `GetProviderTags` maps no key to the empty
string: empty-valued keys are pruned before the map is returned. -/
theorem c4_no_empty_values (order : List String) (env : Env)
    (expand : String → Option String) (res : Tags) (k : String)
    (h : GetProviderTags order env expand = some res) :
    getTag res k ≠ some "" := by
  intro hbad
  unfold GetProviderTags at h
  obtain ⟨t0, hrun, hpp⟩ := Option.map_eq_some'.mp h
  subst hpp
  unfold postProcess at hbad
  exact getTag_removeEmpty_ne_empty _ k hbad

/-- C4 witness: on the empty environment the call returns the empty tag set,
and no key of it maps to the empty string. -/
theorem c4_witness :
    GetProviderTags providerKeys emptyEnv noExpand = some [] ∧
    getTag [] keyGitBranch ≠ some "" :=
  ⟨by decide,
   c4_no_empty_values providerKeys emptyEnv noExpand [] keyGitBranch (by decide)⟩

/-- C5 counterexample: with the branch override set to `refs/heads/main` (and
no CI provider detected), the final branch tag is the normalized `main`, not
the override value itself — the override is applied before reference
normalization. -/
theorem c5_counterexample :
    envOnly "DD_GIT_BRANCH" "refs/heads/main" "DD_GIT_BRANCH" =
      some "refs/heads/main" ∧
    GetProviderTags providerKeys (envOnly "DD_GIT_BRANCH" "refs/heads/main") noExpand =
      some [(keyGitBranch, "main")] ∧
    getTag [(keyGitBranch, "main")] keyGitBranch ≠ some "refs/heads/main" := by
  refine ⟨by decide, by decide, by decide⟩

/-- C5 (amended): when the branch override variable `DD_GIT_BRANCH` is set to
a non-empty value `v`, the final branch tag equals `normalizeRef v` —
the override replaces whatever the platform extractor produced, but is then
reference-normalized; if `normalizeRef v` is empty the branch key is pruned
and absent. -/
theorem c5_amended (env : Env) (order : List String)
    (expand : String → Option String) (v : String) (res : Tags)
    (h : env "DD_GIT_BRANCH" = some v) (hv : v ≠ "")
    (hres : GetProviderTags order env expand = some res) :
    getTag res keyGitBranch =
      if normalizeRef v = "" then none else some (normalizeRef v) := by
  unfold GetProviderTags at hres
  obtain ⟨t0, hrun, hpp⟩ := Option.map_eq_some'.mp hres
  subst hpp
  have hok0 : keysOk t0 := runProviders_keysOk order [] t0 hrun keysOk_nil
  have h1 : getTag (replaceWithUserSpecificTags env t0) keyGitBranch = some v :=
    getTag_replaceUser_branch env t0 h hv
  have hok1 := keysOk_replaceUser env hok0
  have h2 : getTag (normalizeTags (replaceWithUserSpecificTags env t0)) keyGitBranch
      = some (normalizeRef v) := by
    unfold normalizeTags
    rw [getTag_normalizeURLStep_ne (by decide : keyGitBranch ≠ keyGitRepositoryURL),
      getTag_normalizeTagStep_ne (by decide : keyGitBranch ≠ keyGitTag)]
    exact getTag_normalizeBranchStep_branch h1 hv
  have hok2 := keysOk_normalizeTags hok1
  have h3 : getTag (expandWorkspace expand
      (normalizeTags (replaceWithUserSpecificTags env t0))) keyGitBranch =
      some (normalizeRef v) := by
    rw [getTag_expandWorkspace_ne expand
      (by decide : keyGitBranch ≠ keyCIWorkspacePath)]
    exact h2
  have hok3 := keysOk_expandWorkspace expand hok2
  unfold postProcess
  exact getTag_removeEmpty hok3 h3

/-- C5 witness: the amended statement at the concrete override
`DD_GIT_BRANCH=refs/heads/main` with no CI provider detected. -/
theorem c5_witness :
    envOnly "DD_GIT_BRANCH" "refs/heads/main" "DD_GIT_BRANCH" =
      some "refs/heads/main" ∧
    getTag [(keyGitBranch, "main")] keyGitBranch =
      (if normalizeRef "refs/heads/main" = "" then none
       else some (normalizeRef "refs/heads/main")) :=
  ⟨by decide,
   c5_amended (envOnly "DD_GIT_BRANCH" "refs/heads/main") providerKeys noExpand
     "refs/heads/main" [(keyGitBranch, "main")] (by decide) (by decide) (by decide)⟩

/-- A GitLab environment whose `CI_COMMIT_AUTHOR` is set but carries no
`<`/`>` email delimiters. -/
def envGitlabNoDelim : Env := fun k =>
  if k = "GITLAB_CI" then some "true"
  else if k = "CI_COMMIT_AUTHOR" then some "Jane Doe" else none

/-- C6: the claim says extraction always completes, treating unset variables
as empty strings; but with `GITLAB_CI` present the GitLab extractor splits
`CI_COMMIT_AUTHOR` on `<`/`>` and indexes elements 0 and 1 of the result
unconditionally, so an unset author (zero fields) or an author without the
delimiters (one field) makes the indexing go out of bounds and the whole
call panic — modelled as `none`. -/
theorem c6_code_bug :
    extractGitlab (envOnly "GITLAB_CI" "true") = none ∧
    GetProviderTags providerKeys (envOnly "GITLAB_CI" "true") noExpand = none ∧
    extractGitlab envGitlabNoDelim = none ∧
    GetProviderTags providerKeys envGitlabNoDelim noExpand = none := by
  refine ⟨by decide, by decide, by decide, by decide⟩

/-- The GitHub-only environment of C7: the trigger variable is present but
set to the empty string (presence alone selects the provider). -/
def envGithubOnly : Env := envOnly "GITHUB_SHA" ""

/-- The tag set produced in the C7 scenario. -/
def githubResult : Tags :=
  postProcess envGithubOnly noExpand (extractGithubActions envGithubOnly)

/-- The provider-name constants of the eleven platforms other than GitHub. -/
def otherProviderNames : List String :=
  ["appveyor", "azurepipelines", "bitbucket", "buddy", "buildkite", "circleci",
   "gitlab", "jenkins", "teamcity", "travisci", "bitrise"]

set_option maxHeartbeats 2000000 in
/-- C7: a provider is selected by mere presence of its trigger variable
(any value, even the empty string); whenever `GITHUB_SHA` is the only
trigger variable present, the provider-name tag of the result is the GitHub
constant regardless of the iteration order and of every other variable; and
in the concrete GitHub-only environment (trigger set to the empty string)
no other platform's provider-name constant appears anywhere in the tag
set. -/
theorem c7_github_selected :
    (∀ (env : Env) (order : List String) (expand : String → Option String)
      (res : Tags),
      order.Perm providerKeys →
      (env "GITHUB_SHA").isSome = true →
      (∀ k, k ∈ providerKeys → k ≠ "GITHUB_SHA" → env k = none) →
      GetProviderTags order env expand = some res →
      getTag res keyCIProviderName = some "github") ∧
    GetProviderTags providerKeys envGithubOnly noExpand = some githubResult ∧
    getTag githubResult keyCIProviderName = some "github" ∧
    (otherProviderNames.all (fun n => githubResult.all (fun p => !(p.2 == n))))
      = true := by
  refine ⟨?_, by decide, by decide, by decide⟩
  intro env order expand res hperm hsha habs hres
  unfold GetProviderTags at hres
  obtain ⟨t0, hrun, hpp⟩ := Option.map_eq_some'.mp hres
  have hgh : runProviders env order [] = some (extractGithubActions env) := by
    apply runProviders_select order []
    · intro k hk hks
      have hkp : k ∈ providerKeys := hperm.mem_iff.mp hk
      by_cases hkg : k = "GITHUB_SHA"
      · subst hkg
        exact providerExtract_github env
      · rw [habs k hkp hkg] at hks
        simp at hks
    · exact ⟨"GITHUB_SHA", hperm.mem_iff.mpr (by decide), hsha⟩
  rw [hgh] at hrun
  injection hrun with ht0
  subst ht0
  subst hpp
  have h1 := getTag_extractGithubActions_provider env
  have h2 : getTag (replaceWithUserSpecificTags env (extractGithubActions env))
      keyCIProviderName = some "github" := by
    rw [getTag_replaceUser_provider]
    exact h1
  have h3 : getTag (normalizeTags
      (replaceWithUserSpecificTags env (extractGithubActions env)))
      keyCIProviderName = some "github" := by
    rw [getTag_normalizeTags_ne (by decide : keyCIProviderName ≠ keyGitBranch)
      (by decide : keyCIProviderName ≠ keyGitTag)
      (by decide : keyCIProviderName ≠ keyGitRepositoryURL)]
    exact h2
  have h4 : getTag (expandWorkspace expand (normalizeTags
      (replaceWithUserSpecificTags env (extractGithubActions env))))
      keyCIProviderName = some "github" := by
    rw [getTag_expandWorkspace_ne expand
      (by decide : keyCIProviderName ≠ keyCIWorkspacePath)]
    exact h3
  have hok := keysOk_expandWorkspace expand (keysOk_normalizeTags
    (keysOk_replaceUser env (keysOk_extractGithubActions env)))
  unfold postProcess
  rw [getTag_removeEmpty hok h4]
  decide

/-- C7 witness: the universal part applied to the concrete GitHub-only
environment with the canonical iteration order. -/
theorem c7_witness : getTag githubResult keyCIProviderName = some "github" :=
  c7_github_selected.1 envGithubOnly providerKeys noExpand githubResult
    (List.Perm.refl _) (by decide) (by decide) (by decide)

/-- C8 counterexample: for the branch value `refs/refs/heads/tags/v1`
(containing `refs/heads/tags`), normalization leaves
branch = `refs/heads/tags/v1` but tag = `v1`: the tag key is normalized a
second time by the tag block, so the two fields do not receive the same
value. -/
theorem c8_counterexample :
    getTag (normalizeTags [(keyGitBranch, "refs/refs/heads/tags/v1")])
      keyGitBranch = some "refs/heads/tags/v1" ∧
    getTag (normalizeTags [(keyGitBranch, "refs/refs/heads/tags/v1")])
      keyGitTag = some "v1" ∧
    (some "v1" : Option String) ≠ some "refs/heads/tags/v1" := by
  refine ⟨by decide, by decide, by decide⟩

/-- C8 (amended): when the branch value `b` contains `refs/tags`,
`origin/tags` or `refs/heads/tags`, normalization writes `normalizeRef b` to
the branch field, and writes the normalized name to the tag field as well —
but the tag field is then normalized once more by the following block, so it
ends up as `normalizeRef (normalizeRef b)` (identical to the branch value
only when `normalizeRef` has reached a fixed point). -/
theorem c8_amended (t : Tags) (b : String)
    (h : getTag t keyGitBranch = some b)
    (hc : (strContains b "refs/tags" || strContains b "origin/tags" ||
      strContains b "refs/heads/tags") = true) :
    getTag (normalizeTags t) keyGitBranch = some (normalizeRef b) ∧
    getTag (normalizeTags t) keyGitTag =
      some (if normalizeRef b = "" then normalizeRef b
            else normalizeRef (normalizeRef b)) := by
  have hb : b ≠ "" := by
    intro he
    subst he
    exact absurd hc (by decide)
  constructor
  · unfold normalizeTags
    rw [getTag_normalizeURLStep_ne (by decide : keyGitBranch ≠ keyGitRepositoryURL),
      getTag_normalizeTagStep_ne (by decide : keyGitBranch ≠ keyGitTag)]
    exact getTag_normalizeBranchStep_branch h hb
  · unfold normalizeTags
    rw [getTag_normalizeURLStep_ne (by decide : keyGitTag ≠ keyGitRepositoryURL)]
    exact getTag_normalizeTagStep_tag (getTag_normalizeBranchStep_tag h hb hc)

/-- C8 witness: the amended statement at the concrete branch value
`refs/tags/v1`. -/
theorem c8_witness :
    getTag (normalizeTags [(keyGitBranch, "refs/tags/v1")]) keyGitBranch =
      some (normalizeRef "refs/tags/v1") ∧
    getTag (normalizeTags [(keyGitBranch, "refs/tags/v1")]) keyGitTag =
      some (if normalizeRef "refs/tags/v1" = "" then normalizeRef "refs/tags/v1"
            else normalizeRef (normalizeRef "refs/tags/v1")) :=
  c8_amended [(keyGitBranch, "refs/tags/v1")] "refs/tags/v1" (by decide) (by decide)

/-- C10 counterexample: with no trigger variable present and the override
`DD_GIT_BRANCH` set to the non-empty value `refs/`, the returned tag set is
empty — the override normalizes to the empty string and is pruned. -/
theorem c10_counterexample :
    envOnly "DD_GIT_BRANCH" "refs/" "DD_GIT_BRANCH" = some "refs/" ∧
    ("refs/" : String) ≠ "" ∧
    (∀ k ∈ providerKeys, envOnly "DD_GIT_BRANCH" "refs/" k = none) ∧
    GetProviderTags providerKeys (envOnly "DD_GIT_BRANCH" "refs/") noExpand =
      some [] := by
  refine ⟨by decide, by decide, by decide, by decide⟩

/-- C10 (amended): with no trigger variable present, the overrides are
applied to the empty mapping, normalized and pruned, and returned even though
no CI platform was detected; the result is non-empty whenever an override
value survives normalization and pruning — in particular a non-empty
commit-SHA override always does (while e.g. a branch override that
normalizes to the empty string is pruned and can leave the set empty, see the
counterexample). -/
theorem c10_amended (env : Env) (order : List String)
    (expand : String → Option String) (v : String) (res : Tags)
    (hperm : order.Perm providerKeys)
    (habs : ∀ k ∈ providerKeys, env k = none)
    (h : env "DD_GIT_COMMIT_SHA" = some v) (hv : v ≠ "")
    (hres : GetProviderTags order env expand = some res) :
    getTag res keyGitCommitSHA = some v ∧ res ≠ [] := by
  unfold GetProviderTags at hres
  obtain ⟨t0, hrun, hpp⟩ := Option.map_eq_some'.mp hres
  have habs' : ∀ k ∈ order, env k = none := fun k hk => habs k (hperm.mem_iff.mp hk)
  rw [runProviders_absent order [] habs'] at hrun
  injection hrun with ht0
  subst ht0
  subst hpp
  have h1 := getTag_replaceUser_sha env [] h hv
  have h2 : getTag (normalizeTags (replaceWithUserSpecificTags env []))
      keyGitCommitSHA = some v := by
    rw [getTag_normalizeTags_ne (by decide : keyGitCommitSHA ≠ keyGitBranch)
      (by decide : keyGitCommitSHA ≠ keyGitTag)
      (by decide : keyGitCommitSHA ≠ keyGitRepositoryURL)]
    exact h1
  have h3 : getTag (expandWorkspace expand
      (normalizeTags (replaceWithUserSpecificTags env []))) keyGitCommitSHA =
      some v := by
    rw [getTag_expandWorkspace_ne expand
      (by decide : keyGitCommitSHA ≠ keyCIWorkspacePath)]
    exact h2
  have hok := keysOk_expandWorkspace expand (keysOk_normalizeTags
    (keysOk_replaceUser env keysOk_nil))
  have h4 : getTag (postProcess env expand []) keyGitCommitSHA = some v := by
    unfold postProcess
    rw [getTag_removeEmpty hok h3, if_neg hv]
  refine ⟨h4, ?_⟩
  intro hemp
  rw [hemp] at h4
  exact absurd h4 (by simp [getTag, List.find?])

/-- C10 witness: the amended statement at the concrete override
`DD_GIT_COMMIT_SHA=abc123` with no provider trigger present. -/
theorem c10_witness :
    getTag (postProcess (envOnly "DD_GIT_COMMIT_SHA" "abc123") noExpand [])
      keyGitCommitSHA = some "abc123" ∧
    postProcess (envOnly "DD_GIT_COMMIT_SHA" "abc123") noExpand [] ≠ [] :=
  c10_amended (envOnly "DD_GIT_COMMIT_SHA" "abc123") providerKeys noExpand
    "abc123" (postProcess (envOnly "DD_GIT_COMMIT_SHA" "abc123") noExpand [])
    (List.Perm.refl _) (by decide) (by decide) (by decide) (by decide)

/-- Embedding of `isFailNow` (init.go:212-214): the pattern
`testing\.\(\*common\)\.FailNow` is an unanchored literal, so matching is
substring containment. -/
def isFailNow (stackTrace : String) : Bool :=
  strContains stackTrace "testing.(*common).FailNow"

/-- Embedding of `isFatal` (init.go:216-218); the literal pattern
`testing\.\(\*common\)\.Fatal` also catches `Fatalf`. -/
def isFatal (stackTrace : String) : Bool :=
  strContains stackTrace "testing.(*common).Fatal"

/-- Calls made on the external sink by the finish routine, in order. -/
inductive SinkEvent
  | finish
  | flush
  | stop
deriving DecidableEq

/-- Result of the finish closure of `StartTestWithContext` (init.go:139-192):
the tags written on the span, the sink calls performed (in order), and the
re-raised fault value, if any. -/
structure FinishOutcome where
  status : Option String
  errFlag : Option Bool
  errMsg : Option String
  errStack : Option String
  errType : Option String
  events : List SinkEvent
  repanic : Option String
deriving DecidableEq

/-- Embedding of the `cleanup` closure of `StartTestWithContext`
(init.go:139-192).  `recovered` is the value returned by `recover()` during
unwind (`none` on a normal return, `some r` with the fault's formatted
message otherwise); `stack` is the trace captured by `getStacktrace`;
`failed`, `skipped` and `failureMsg` are the test unit's `Failed()`,
`Skipped()` and `FailureMsg()`.  The status strings `fail`/`skip`/`pass` are
modelled from the spec's outcome taxonomy (the constants live in
`internal/constants`, not under `src/`). -/
def finishSpan (recovered : Option String) (stack : String)
    (failed skipped : Bool) (failureMsg : String) : FinishOutcome :=
  match recovered with
  | some r =>
    { status := some "fail", errFlag := some true, errMsg := some r,
      errStack := some stack, errType := some "panic",
      events := [SinkEvent.finish, SinkEvent.flush, SinkEvent.stop],
      repanic := some r }
  | none =>
    if failed then
      if isFailNow stack then
        if isFatal stack then
          { status := some "fail", errFlag := some failed,
            errMsg := some failureMsg, errStack := some stack,
            errType := some "Fatal", events := [SinkEvent.finish],
            repanic := none }
        else
          { status := some "fail", errFlag := some failed,
            errMsg := some failureMsg, errStack := some stack,
            errType := some "FailNow", events := [SinkEvent.finish],
            repanic := none }
      else
        { status := some "fail", errFlag := some failed,
          errMsg := some failureMsg, errStack := none, errType := none,
          events := [SinkEvent.finish], repanic := none }
    else if skipped then
      { status := some "skip", errFlag := some failed, errMsg := none,
        errStack := none, errType := none, events := [SinkEvent.finish],
        repanic := none }
    else
      { status := some "pass", errFlag := some failed, errMsg := none,
        errStack := none, errType := none, events := [SinkEvent.finish],
        repanic := none }

/-- C1: when the finish closure runs during unwind of an uncaught fault, it
classifies the unit as failed with error=true and error-type `panic`,
records the fault's message and the captured stack trace, finalizes the
record, then flushes and stops the external sink (in that order), and
finally re-raises the original fault value unchanged. -/
theorem c1_panic_finish (r stack : String) (failed skipped : Bool)
    (msg : String) :
    (finishSpan (some r) stack failed skipped msg).status = some "fail" ∧
    (finishSpan (some r) stack failed skipped msg).errFlag = some true ∧
    (finishSpan (some r) stack failed skipped msg).errType = some "panic" ∧
    (finishSpan (some r) stack failed skipped msg).errMsg = some r ∧
    (finishSpan (some r) stack failed skipped msg).errStack = some stack ∧
    (finishSpan (some r) stack failed skipped msg).events =
      [SinkEvent.finish, SinkEvent.flush, SinkEvent.stop] ∧
    (finishSpan (some r) stack failed skipped msg).repanic = some r :=
  ⟨rfl, rfl, rfl, rfl, rfl, rfl, rfl⟩

/-- A stack trace of a plain `t.Fail()`-style failure: no
`testing.(*common).FailNow` frame appears. -/
def plainFailStack : String := "main.TestFoo\n\tmain_test.go:10\n"

/-- C2 counterexample: for a fail-but-continue failure the finish closure
attaches the failure message but does not attach the captured stack trace
(the error-stack tag is only written inside the FailNow branch), refuting
the claim that every fault-free failed unit gets a stack trace attached. -/
theorem c2_counterexample :
    isFailNow plainFailStack = false ∧
    (finishSpan none plainFailStack true false "boom").status = some "fail" ∧
    (finishSpan none plainFailStack true false "boom").errMsg = some "boom" ∧
    (finishSpan none plainFailStack true false "boom").errStack = none := by
  refine ⟨by decide, by decide, by decide, by decide⟩

/-- C2 (amended): a unit that finishes flagged failed without a fault is
classified Failed with error=true and its failure message attached; the
captured stack trace is attached, together with error-type `FailNow`
(refined to `Fatal` when the narrower Fatal frame signature also matches),
only when the trace matches the FailNow frame signature; a fail-but-continue
failure yields plain Failed with no stack trace attached and no error-type
tag. -/
theorem c2_amended (stack msg : String) (skipped : Bool) :
    finishSpan none stack true skipped msg =
      { status := some "fail", errFlag := some true, errMsg := some msg,
        errStack := if isFailNow stack then some stack else none,
        errType := if isFailNow stack then
            (if isFatal stack then some "Fatal" else some "FailNow")
          else none,
        events := [SinkEvent.finish], repanic := none } := by
  unfold finishSpan
  by_cases h1 : isFailNow stack
  · by_cases h2 : isFatal stack
    · simp [h1, h2]
    · simp [h1, h2]
  · simp [h1]

/-- ASCII character class `[a-zA-Z0-9\\\-_.]` of `repoRegex` (init.go:32). -/
def inRepoClass (c : Char) : Bool :=
  c.isAlpha || c.isDigit || c = '\\' || c = '-' || c = '_' || c = '.'

/-- Match of `[a-zA-Z0-9\\\-_.]*$` in multiline mode, starting at the head of
`l`: succeeds iff every character up to the next newline (or the end) is in
the class, capturing exactly those characters. -/
def lineCapture : List Char → Option (List Char)
  | [] => some []
  | c :: t =>
    if c = '\n' then some []
    else if inRepoClass c then (lineCapture t).map (fun l => c :: l)
    else none

/-- Leftmost match of `repoRegex` = `(?m)\/([a-zA-Z0-9\\\-_.]*)$`
(`FindStringSubmatch`): scan for the first `/` whose line remainder is
entirely in the class, returning the captured group. -/
def findRepoSeg : List Char → Option (List Char)
  | [] => none
  | c :: t =>
    if c = '/' then
      match lineCapture t with
      | some seg => some seg
      | none => findRepoSeg t
    else findRepoSeg t

/-- The service-name derivation of `Run` (init.go:46-53): when `repoRegex`
matches, the captured final segment with a trailing `.git` stripped;
otherwise the repository URL unchanged. -/
def deriveService (repoUrl : String) : String :=
  match findRepoSeg repoUrl.data with
  | some seg => trimSuffixStr (String.mk seg) ".git"
  | none => repoUrl

/-- The default-service logic of `Run` (init.go:45-54): when `DD_SERVICE`
reads as empty and the repository-URL tag is present, the derived name is
passed to the tracer; otherwise no default is set.  (The process-wide CI tag
cache consulted by `getFromCITags` lives outside `src/`; the tag set is
taken as a parameter.) -/
def serviceNameOption (env : Env) (tags : Tags) : Option String :=
  if getenv env "DD_SERVICE" = "" then
    match getTag tags keyGitRepositoryURL with
    | some repoUrl => some (deriveService repoUrl)
    | none => none
  else none

/-- The characters after the last `/` (the claim's notion of the final path
segment). -/
def afterLastSlash : List Char → List Char
  | [] => []
  | c :: t => if c = '/' ∧ '/' ∉ t then t else afterLastSlash t

theorem lineCapture_all {l : List Char} (hn : '\n' ∉ l)
    (hc : l.all inRepoClass = true) : lineCapture l = some l := by
  induction l with
  | nil => rfl
  | cons c t ih =>
    have hcn : c ≠ '\n' := fun he => hn (he ▸ List.mem_cons_self c t)
    rw [List.all_cons, Bool.and_eq_true] at hc
    unfold lineCapture
    rw [if_neg hcn, if_pos hc.1, ih (fun h => hn (List.mem_cons_of_mem c h)) hc.2]
    rfl

theorem lineCapture_not_all {l : List Char} (hn : '\n' ∉ l)
    (hc : l.all inRepoClass = false) : lineCapture l = none := by
  induction l with
  | nil => cases hc
  | cons c t ih =>
    have hcn : c ≠ '\n' := fun he => hn (he ▸ List.mem_cons_self c t)
    rw [List.all_cons] at hc
    unfold lineCapture
    rw [if_neg hcn]
    cases hcc : inRepoClass c with
    | false => rw [if_neg (by simp)]
    | true =>
      rw [hcc, Bool.true_and] at hc
      rw [if_pos rfl, ih (fun h => hn (List.mem_cons_of_mem c h)) hc]
      rfl

theorem findRepoSeg_no_slash {l : List Char} (hs : '/' ∉ l) :
    findRepoSeg l = none := by
  induction l with
  | nil => rfl
  | cons c t ih =>
    have hc : c ≠ '/' := fun he => hs (he ▸ List.mem_cons_self c t)
    unfold findRepoSeg
    rw [if_neg hc]
    exact ih (fun h => hs (List.mem_cons_of_mem c h))

theorem findRepoSeg_eq {l : List Char} (hn : '\n' ∉ l) (hs : '/' ∈ l) :
    findRepoSeg l =
      if (afterLastSlash l).all inRepoClass then some (afterLastSlash l)
      else none := by
  induction l with
  | nil => cases hs
  | cons c t ih =>
    have hn' : '\n' ∉ t := fun h => hn (List.mem_cons_of_mem c h)
    by_cases hc : c = '/'
    · subst hc
      by_cases ht : '/' ∈ t
      · have hals : afterLastSlash ('/' :: t) = afterLastSlash t := by
          show (if ('/' : Char) = '/' ∧ '/' ∉ t then t else afterLastSlash t) =
            afterLastSlash t
          exact if_neg (fun hand => hand.2 ht)
        have hlc : lineCapture t = none := by
          apply lineCapture_not_all hn'
          cases hall : t.all inRepoClass with
          | false => rfl
          | true =>
            exfalso
            have := List.all_eq_true.mp hall '/' ht
            simp [inRepoClass] at this
        unfold findRepoSeg
        rw [if_pos rfl, hlc, hals]
        exact ih hn' ht
      · have hals : afterLastSlash ('/' :: t) = t := by
          show (if ('/' : Char) = '/' ∧ '/' ∉ t then t else afterLastSlash t) = t
          exact if_pos ⟨rfl, ht⟩
        unfold findRepoSeg
        rw [if_pos rfl, hals]
        cases hall : t.all inRepoClass with
        | true =>
          rw [lineCapture_all hn' hall]
          rfl
        | false =>
          rw [lineCapture_not_all hn' hall, findRepoSeg_no_slash ht]
          rfl
    · have hs' : '/' ∈ t := by
        cases List.mem_cons.mp hs with
        | inl he => exact absurd he.symm hc
        | inr hr => exact hr
      have hals : afterLastSlash (c :: t) = afterLastSlash t := by
        show (if c = '/' ∧ '/' ∉ t then t else afterLastSlash t) = afterLastSlash t
        exact if_neg (fun hand => hc hand.1)
      unfold findRepoSeg
      rw [if_neg hc, hals]
      exact ih hn' hs'

/-- C9 counterexample: for the repository URL `a/b:c.git` (whose final
segment `b:c.git` contains `:`, outside the regular expression's character
class) the default service name is the whole URL unchanged, not the final
path segment with `.git` stripped (`b:c`). -/
theorem c9_counterexample :
    serviceNameOption emptyEnv [(keyGitRepositoryURL, "a/b:c.git")] =
      some "a/b:c.git" ∧
    trimSuffixStr (String.mk (afterLastSlash ("a/b:c.git").data)) ".git" =
      "b:c" ∧
    ("a/b:c.git" : String) ≠ "b:c" := by
  refine ⟨by decide, by decide, by decide⟩

/-- C9 (amended): when `DD_SERVICE` reads as empty and a repository-URL tag
is present (the URL containing a `/` and no newline), the default service
name is the final path segment with a trailing `.git` suffix stripped,
provided that segment consists only of ASCII letters, digits, backslash,
hyphen, underscore and dot; otherwise the whole URL is passed unchanged. -/
theorem c9_amended (env : Env) (tags : Tags) (s : String)
    (hdd : getenv env "DD_SERVICE" = "")
    (hrepo : getTag tags keyGitRepositoryURL = some s)
    (hn : '\n' ∉ s.data) (hs : '/' ∈ s.data) :
    serviceNameOption env tags =
      some (if (afterLastSlash s.data).all inRepoClass then
        trimSuffixStr (String.mk (afterLastSlash s.data)) ".git" else s) := by
  unfold serviceNameOption
  rw [if_pos hdd]
  simp only [hrepo]
  unfold deriveService
  rw [findRepoSeg_eq hn hs]
  by_cases h : (afterLastSlash s.data).all inRepoClass = true
  · rw [if_pos h, if_pos h]
  · rw [if_neg h, if_neg h]

/-- C9 witness: the amended statement at the URL
`https://github.com/org/repo.git` (evaluating to the service name `repo`). -/
theorem c9_witness :
    serviceNameOption emptyEnv
      [(keyGitRepositoryURL, "https://github.com/org/repo.git")] =
      some (if (afterLastSlash ("https://github.com/org/repo.git").data).all
          inRepoClass then
        trimSuffixStr
          (String.mk (afterLastSlash ("https://github.com/org/repo.git").data))
          ".git"
      else "https://github.com/org/repo.git") :=
  c9_amended emptyEnv [(keyGitRepositoryURL, "https://github.com/org/repo.git")]
    "https://github.com/org/repo.git" (by decide) (by decide) (by decide)
    (by decide)

end DdSdkGoTesting
